import Mathlib

/-!
Shallow embedding of the zerostash metadata object packer
(`src/libzerostash/src/meta/writer.rs`).

The source under scrutiny is `Writer` (the object packer), its
`FieldWriter::write_next` implementation, and the `WriteState` machine,
all of which live in `writer.rs` and are translated here statement by
statement.  The collaborating types (`WriteObject`, the compression
stream, the crypto capability, the backend, the constants `HEADER_SIZE`
and `STREAM_BLOCK_SIZE`) are declared in modules of this repository that
are not part of the packer file; they are modelled from the spec, as
documented on each definition.

Machine integers: all positions and sizes are `usize` in the source;
they are modelled as `Nat`.  The only subtraction performed by the
packer is `capacity - position` in `write_next` and
`position - HEADER_SIZE` / `STREAM_BLOCK_SIZE - _ % _` in `write_field`;
the theorems establish the invariants (`position ≤ capacity`,
`HEADER_SIZE ≤ position`) under which truncated `Nat` subtraction agrees
with the `usize` arithmetic of the source.

Fallible steps (the compression stream, serialization, the backend) are
embedded with an explicit error component: every packer operation
returns the updated `Writer` together with `Option Err`, `none` meaning
normal completion, `some e` meaning the operation aborted with `e`
(an `unwrap`/`expect`/`assert!` panic or a propagated `Err` in the
source).  External fault injection is threaded through a `Faults`
record so error-propagation claims can be settled.
-/

namespace ZeroStash

/-- Failure conditions surfaced by the packer.  `uninitialized` and
`inactive` are the two `WriteState` error strings in `writer.rs`;
`headerOverflow` is the `assert!(header_bytes.len() < HEADER_SIZE)`
failure; the remaining constructors tag injected failures of the
external capabilities. -/
inductive Err where
  | uninitialized
  | inactive
  | headerOverflow
  | streamFail
  | compressFinishFail
  | serializeFail
  | backendFail
deriving DecidableEq, Repr

/-- Fault injection for the external capabilities: `compress::stream`,
`Encoder::finish`, record serialization, and `Backend::write_object`.
All `false` is the normal run. -/
structure Faults where
  streamFail : Bool
  compressFinishFail : Bool
  serializeFail : Bool
  backendFail : Bool
deriving DecidableEq, Repr

/-- The fault-free environment. -/
def noFaults : Faults := ⟨false, false, false, false⟩

/-- Modelled from the spec: `ObjectId` is a fixed-length identifier
generated by the crypto capability; modelled as `Nat`, with the
capability's generator modelled as a counter (each `ObjectId::new`
returns the counter and advances it, so generated ids are fresh). -/
abbrev ObjectId := Nat

/-- Modelled from the spec: `Field` is an enumerated kind of metadata
record, compared by kind; modelled as `Nat`. -/
abbrev Field := Nat

/-- A `(Field, byte-position-within-object)` pair, as produced by
`Field::as_offset` in the source. -/
abbrev FieldOffset := Field × Nat

/-- Modelled from the spec: `WriteObject` owns an identifier, a write
cursor (`position`), the payload bytes written past the header region,
and the bytes placed into the reserved header region by `write_head`.
The fixed total capacity is system-wide (the block size) and lives in
`Caps`, not per object. -/
structure WriteObject where
  id : ObjectId
  position : Nat
  payload : List Nat
  header : List Nat
deriving DecidableEq, Repr

/-- Modelled from the spec: writing bytes appends them to the payload
and advances the cursor.  This is the observable effect of a write
reaching the buffer (for writes routed through the compression stream,
the bytes stand for the compressed output attributed to the write). -/
def WriteObject.writeBytes (w : WriteObject) (bs : List Nat) : WriteObject :=
  { w with payload := w.payload ++ bs, position := w.position + bs.length }

/-- Modelled from the spec: `seek(SeekFrom::Start(n))`. -/
def WriteObject.seekTo (w : WriteObject) (n : Nat) : WriteObject :=
  { w with position := n }

/-- Modelled from the spec: `seek(SeekFrom::Current(n))` with `n ≥ 0`. -/
def WriteObject.seekAdd (w : WriteObject) (n : Nat) : WriteObject :=
  { w with position := w.position + n }

/-- Modelled from the spec: `set_id` manages identity. -/
def WriteObject.set_id (w : WriteObject) (i : ObjectId) : WriteObject :=
  { w with id := i }

/-- Modelled from the spec: `clear` resets payload content, not
identity. -/
def WriteObject.clear (w : WriteObject) : WriteObject :=
  { w with payload := [] }

/-- Modelled from the spec: `write_head` overwrites the reserved header
region with the encoded header bytes, never touching payload bytes. -/
def WriteObject.write_head (w : WriteObject) (hs : List Nat) : WriteObject :=
  { w with header := hs }

/-- Modelled from the spec: `finalize` pads/prepares the tail for
authenticated encryption; it changes no field observed by the packer,
so it is the identity on this abstraction. -/
def WriteObject.finalize (w : WriteObject) : WriteObject := w

/-- Modelled from the spec: in-place authenticated encryption; the
byte content is opaque to the packer, so it is the identity on this
abstraction. -/
def WriteObject.encrypt (w : WriteObject) : WriteObject := w

/-- Modelled from the spec: the per-object metadata encoded into the
reserved header region: optional pointer to the next object continuing
the current field, the offsets collected for this object, and the
end-of-payload position. -/
structure MetaObjectHeader where
  next : Option ObjectId
  offsets : List FieldOffset
  endPos : Nat
deriving DecidableEq, Repr

/-- Modelled from the spec: the system constants and capability
parameters the packer is instantiated with — `HEADER_SIZE` (reserved
header region), `STREAM_BLOCK_SIZE` (compression frame size), the
object capacity (block size minus the reserved crypto tag), and the
opaque CBOR encoding of a header (only its byte length is ever
inspected by the packer). -/
structure Caps where
  headerSize : Nat
  streamBlockSize : Nat
  capacity : Nat
  encodeHeader : MetaObjectHeader → List Nat

/-- `ObjectIndex = HashMap<Field, HashSet<ObjectId>>` from the source,
embedded as an association list of fields to duplicate-free id lists
(hash order is irrelevant; only membership semantics is used). -/
abbrev ObjectIndex := List (Field × List ObjectId)

/-- `HashSet::insert`: membership insertion, a no-op when present. -/
def insertId (s : List ObjectId) (i : ObjectId) : List ObjectId :=
  if i ∈ s then s else s ++ [i]

/-- `self.objects.entry(f).or_default().insert(i)` from the source:
insert `i` into the id set of `f`, creating the entry if absent. -/
def indexRecord : ObjectIndex → Field → ObjectId → ObjectIndex
  | [], f, i => [(f, [i])]
  | (g, s) :: rest, f, i =>
    if g = f then (g, insertId s i) :: rest
    else (g, s) :: indexRecord rest f i

/-- Look up the id set recorded for a field (empty when absent). -/
def indexLookup : ObjectIndex → Field → List ObjectId
  | [], _ => []
  | (g, s) :: rest, f => if g = f then s else indexLookup rest f

/-- `for fo in self.offsets.drain(..) { ... insert(object.id) }` from
`seal_and_store`: register every drained offset's field under `i`. -/
def drainOffsets (m : ObjectIndex) (offs : List FieldOffset) (i : ObjectId) :
    ObjectIndex :=
  offs.foldl (fun acc fo => indexRecord acc fo.1 i) m

/-- `WriteState` from `writer.rs`: `Idle` owns nothing, `Parked` owns
an idle buffer, `Encoding` owns the compression stream wrapping the
buffer.  The compressor's internal state is opaque to the packer, so
`Encoding` carries the wrapped `WriteObject` directly. -/
inductive WriteState where
  | Idle
  | Parked (w : WriteObject)
  | Encoding (w : WriteObject)
deriving DecidableEq, Repr

/-- The buffer currently owned by the state, if any. -/
def WriteState.obj? : WriteState → Option WriteObject
  | .Idle => none
  | .Parked w => some w
  | .Encoding w => some w

/-- `WriteState::start`: `Idle` fails with "Uninitialized"; `Parked`
hands the buffer to `compress::stream` (whose failure leaves the state
`Idle`, the buffer having been swapped out) and becomes `Encoding`;
`Encoding` is a no-op. -/
def WriteState.start (fl : Faults) : WriteState → Except Err WriteState
  | .Idle => .error .uninitialized
  | .Parked w => if fl.streamFail then .error .streamFail else .ok (.Encoding w)
  | .Encoding w => .ok (.Encoding w)

/-- `WriteState::finish`: swaps the state out (leaving `Idle`) and
returns the owned buffer; from `Encoding` the stream is flushed first
and its failure is propagated; from `Idle` it fails with
"Uninitialized". -/
def WriteState.finish (fl : Faults) : WriteState → Except Err WriteObject
  | .Idle => .error .uninitialized
  | .Parked w => .ok w
  | .Encoding w =>
    if fl.compressFinishFail then .error .compressFinishFail else .ok w

/-- `WriteState::writer`: read access to the owned buffer; fails with
"Uninitialized" on `Idle`. -/
def WriteState.writer : WriteState → Except Err WriteObject
  | .Idle => .error .uninitialized
  | .Parked w => .ok w
  | .Encoding w => .ok w

/-- `impl Write for WriteState`: writing is only valid in `Encoding`;
`Idle` fails with "Uninitialized" and `Parked` with "Inactive", the
state unchanged in both failure cases. -/
def WriteState.write : WriteState → List Nat → WriteState × Except Err Nat
  | .Idle, _ => (.Idle, .error .uninitialized)
  | .Parked w, _ => (.Parked w, .error .inactive)
  | .Encoding w, bs => (.Encoding (w.writeBytes bs), .ok bs.length)

/-- The packer state from `writer.rs`, extended with the model of the
two stateful external capabilities: `nextIdSeed` is the crypto id
generator's counter, `store` is the list of objects the backend has
durably persisted. -/
structure Writer where
  objects : ObjectIndex
  offsets : List FieldOffset
  encoder : WriteState
  current_field : Option Field
  nextIdSeed : Nat
  store : List WriteObject
deriving DecidableEq, Repr

/-- `Writer::new`: a fresh buffer carrying the root id, cursor placed
at the end of the reserved header region, parked. -/
def Writer.new (caps : Caps) (root_object_id : ObjectId) : Writer :=
  { objects := []
    offsets := []
    encoder := .Parked ⟨root_object_id, caps.headerSize, [], []⟩
    current_field := none
    nextIdSeed := 0
    store := [] }

/-- The `MetaObjectHeader::new` call in `seal_and_store`: the next
pointer is `current_field.map(|_| next_object_id)`, the offsets are
those collected since the last seal, the end position is the recovered
payload end. -/
def sealHeader (w : Writer) (nid : ObjectId) (endPos : Nat) : MetaObjectHeader :=
  ⟨w.current_field.map (fun _ => nid), w.offsets, endPos⟩

/-- `Writer::seal_and_store`, line for line: finish the stream
(recovering the buffer; its position is the payload end), finalize,
generate the next object id, build and encode the header, assert it
fits the reserved region, write it, encrypt, hand the object to the
backend, drain the collected offsets into the index under the sealed
object's id, reassign the buffer to the next id, clear it, reseek past
the header region, park it, and re-register the mid-write field at the
top of the new object.  A failing step aborts the call with its error,
the swapped-out state left `Idle` and nothing persisted. -/
def Writer.sealAndStore (caps : Caps) (fl : Faults) (w : Writer) :
    Writer × Option Err :=
  match WriteState.finish fl w.encoder with
  | .error e => ({ w with encoder := .Idle }, some e)
  | .ok object =>
    let endPos := object.position
    let object := object.finalize
    let next_object_id := w.nextIdSeed
    let header_bytes := caps.encodeHeader (sealHeader w next_object_id endPos)
    if header_bytes.length < caps.headerSize then
      let object := object.write_head header_bytes
      let object := object.encrypt
      if fl.backendFail then
        ({ w with encoder := .Idle, nextIdSeed := w.nextIdSeed + 1 },
          some .backendFail)
      else
        let store := w.store ++ [object]
        let objects := drainOffsets w.objects w.offsets object.id
        let object := ((object.set_id next_object_id).clear).seekTo caps.headerSize
        let offsets : List FieldOffset :=
          match w.current_field with
          | some f => [(f, caps.headerSize)]
          | none => []
        ({ objects := objects
           offsets := offsets
           encoder := .Parked object
           current_field := w.current_field
           nextIdSeed := w.nextIdSeed + 1
           store := store }, none)
    else
      ({ w with encoder := .Idle, nextIdSeed := w.nextIdSeed + 1 },
        some .headerOverflow)

/-- The tail of `write_next` after the capacity check:
`serialize_to_writer(self.encoder.start().unwrap(), &obj)`.  `recBytes`
are the bytes the record's serialization pushes through the open stream
into the buffer (the serializer and compressor being opaque, a record
is represented by its byte contribution). -/
def Writer.serializeStep (fl : Faults) (w : Writer) (recBytes : List Nat) :
    Writer × Option Err :=
  match WriteState.start fl w.encoder with
  | .error e => ({ w with encoder := .Idle }, some e)
  | .ok st =>
    if fl.serializeFail then ({ w with encoder := st }, some .serializeFail)
    else
      match WriteState.write st recBytes with
      | (st2, .ok _) => ({ w with encoder := st2 }, none)
      | (st2, .error e) => ({ w with encoder := st2 }, some e)

/-- `FieldWriter::write_next` for `Writer`: read the buffer geometry,
seal and store first when the headroom `capacity - position` is below
one compression frame, then serialize the record into the (possibly
fresh) object through the stream. -/
def Writer.write_next (caps : Caps) (fl : Faults) (w : Writer)
    (recBytes : List Nat) : Writer × Option Err :=
  match w.encoder.writer with
  | .error e => (w, some e)
  | .ok wr =>
    if caps.capacity - wr.position < caps.streamBlockSize then
      match w.sealAndStore caps fl with
      | (w2, some e) => (w2, some e)
      | (w2, none) => w2.serializeStep fl recBytes
    else
      w.serializeStep fl recBytes

/-- A field value's `serialize(self)` drives zero or more `write_next`
calls; a failing call aborts the run with its error. -/
def Writer.runWrites (caps : Caps) (fl : Faults) :
    Writer → List (List Nat) → Writer × Option Err
  | w, [] => (w, none)
  | w, r :: rs =>
    match w.write_next caps fl r with
    | (w2, some e) => (w2, some e)
    | (w2, none) => Writer.runWrites caps fl w2 rs

/-- `Writer::write_field`, line for line: push the field's offset at
the current position and register (field → current object id) in the
index eagerly, open the stream, mark the field current, serialize the
field value (driving `write_next` for each nested record), clear the
marker, finish the stream, skip the cursor to the next multiple of
`STREAM_BLOCK_SIZE` past the header region, and park the buffer. -/
def Writer.write_field (caps : Caps) (fl : Faults) (w : Writer) (f : Field)
    (recs : List (List Nat)) : Writer × Option Err :=
  match w.encoder.writer with
  | .error e => (w, some e)
  | .ok wr =>
    match WriteState.start fl w.encoder with
    | .error e =>
      ({ w with offsets := w.offsets ++ [(f, wr.position)]
                objects := indexRecord w.objects f wr.id
                encoder := .Idle }, some e)
    | .ok st =>
      match Writer.runWrites caps fl
        { w with offsets := w.offsets ++ [(f, wr.position)]
                 objects := indexRecord w.objects f wr.id
                 encoder := st
                 current_field := some f } recs with
      | (w2, some e) => (w2, some e)
      | (w2, none) =>
        match WriteState.finish fl w2.encoder with
        | .error e => ({ w2 with current_field := none, encoder := .Idle }, some e)
        | .ok object =>
          ({ w2 with current_field := none
                     encoder := .Parked (object.seekAdd
                       (caps.streamBlockSize -
                         (object.position - caps.headerSize) %
                           caps.streamBlockSize)) }, none)

/-- Upper-bound invariant: the owned buffer's cursor does not exceed
the object capacity (vacuous when no buffer is owned). -/
def stUB (caps : Caps) : WriteState → Prop
  | .Idle => True
  | .Parked o => o.position ≤ caps.capacity
  | .Encoding o => o.position ≤ caps.capacity

/-- Lower-bound invariant: the owned buffer's cursor never precedes
the end of the reserved header region. -/
def stLB (caps : Caps) : WriteState → Prop
  | .Idle => True
  | .Parked o => caps.headerSize ≤ o.position
  | .Encoding o => caps.headerSize ≤ o.position

/-- A small concrete instantiation of the capability parameters: header
region of 4 bytes, compression frames of 8 bytes, capacity 100, every
header encoding to 2 bytes (always fits). -/
def capsW : Caps := ⟨4, 8, 100, fun _ => [0, 0]⟩

/-- A concrete instantiation whose header encoding (5 bytes) overflows
the 4-byte reserved header region. -/
def capsBig : Caps := ⟨4, 8, 100, fun _ => [0, 0, 0, 0, 0]⟩

/-- A concrete packer state holding an open compression stream. -/
def wEnc : Writer := ⟨[], [], .Encoding ⟨0, 4, [], []⟩, none, 0, []⟩

theorem mem_insertId_self (s : List ObjectId) (i : ObjectId) : i ∈ insertId s i := by
  unfold insertId
  split
  · assumption
  · simp

theorem mem_insertId_mono (s : List ObjectId) (i j : ObjectId) (h : j ∈ s) :
    j ∈ insertId s i := by
  unfold insertId
  split
  · exact h
  · simp [h]

theorem insertId_idem (s : List ObjectId) (i : ObjectId) :
    insertId (insertId s i) i = insertId s i := by
  unfold insertId
  split
  · simp [*]
  · simp

theorem mem_indexLookup_indexRecord_self (m : ObjectIndex) (f : Field)
    (i : ObjectId) : i ∈ indexLookup (indexRecord m f i) f := by
  induction m with
  | nil => simp [indexRecord, indexLookup, mem_insertId_self]
  | cons hd tl ih =>
    obtain ⟨g, s⟩ := hd
    by_cases hg : g = f
    · simp [indexRecord, indexLookup, hg, mem_insertId_self]
    · simp [indexRecord, indexLookup, hg, ih]

theorem mem_indexLookup_indexRecord_mono (m : ObjectIndex) (f g : Field)
    (i j : ObjectId) (h : j ∈ indexLookup m f) :
    j ∈ indexLookup (indexRecord m g i) f := by
  induction m with
  | nil => simp [indexLookup] at h
  | cons hd tl ih =>
    obtain ⟨g', s⟩ := hd
    by_cases hf : g' = f
    · subst hf
      simp [indexLookup] at h
      by_cases hgg : g' = g
      · subst hgg
        simp [indexRecord, indexLookup, mem_insertId_mono _ _ _ h]
      · simp [indexRecord, indexLookup, hgg, h]
    · simp only [indexLookup, if_neg hf] at h
      by_cases hgg : g' = g
      · subst hgg
        simp [indexRecord, indexLookup, hf, h]
      · simp [indexRecord, indexLookup, hf, hgg, ih h]

theorem mem_indexLookup_drainOffsets_mono (offs : List FieldOffset)
    (m : ObjectIndex) (f : Field) (i j : ObjectId)
    (h : j ∈ indexLookup m f) : j ∈ indexLookup (drainOffsets m offs i) f := by
  induction offs generalizing m with
  | nil => exact h
  | cons fo rest ih =>
    exact ih _ (mem_indexLookup_indexRecord_mono _ _ _ _ _ h)

theorem drainOffsets_cons (m : ObjectIndex) (fo : FieldOffset)
    (offs : List FieldOffset) (i : ObjectId) :
    drainOffsets m (fo :: offs) i = drainOffsets (indexRecord m fo.1 i) offs i :=
  rfl

theorem mem_indexLookup_drainOffsets (offs : List FieldOffset) (m : ObjectIndex)
    (f : Field) (p : Nat) (i : ObjectId) (h : (f, p) ∈ offs) :
    i ∈ indexLookup (drainOffsets m offs i) f := by
  induction offs generalizing m with
  | nil => simp at h
  | cons fo rest ih =>
    rw [drainOffsets_cons]
    rcases List.mem_cons.mp h with h1 | h2
    · subst h1
      exact mem_indexLookup_drainOffsets_mono _ _ _ _ _
        (mem_indexLookup_indexRecord_self _ _ _)
    · exact ih _ h2

/-- C10: recording the same (field, objectId) pair a second time leaves the
ObjectIndex equal to the index after a single recording: the membership
insertion performed by both the eager registration in `write_field` and
the offset-draining pass in `seal_and_store` is idempotent. -/
theorem indexRecord_idempotent (m : ObjectIndex) (f : Field) (i : ObjectId) :
    indexRecord (indexRecord m f i) f i = indexRecord m f i := by
  induction m with
  | nil => simp [indexRecord, insertId]
  | cons hd tl ih =>
    obtain ⟨g, s⟩ := hd
    by_cases hg : g = f
    · simp [indexRecord, hg, insertId_idem]
    · simp [indexRecord, hg, ih]

/-- C9: `write(bytes)` on a `WriteState` succeeds only in the `Encoding`
state, where it streams the bytes into the owned buffer; in `Idle` it
fails with the "Uninitialized" error and in `Parked` with the "Inactive"
error, and in both failure cases the returned state (and hence the owned
buffer) is unchanged. -/
theorem writeState_write_spec (bs : List Nat) (o : WriteObject) :
    WriteState.write .Idle bs = (.Idle, .error .uninitialized) ∧
    WriteState.write (.Parked o) bs = (.Parked o, .error .inactive) ∧
    WriteState.write (.Encoding o) bs =
      (.Encoding (o.writeBytes bs), .ok bs.length) :=
  ⟨rfl, rfl, rfl⟩

theorem writer_eq_obj? (s : WriteState) (o : WriteObject) :
    s.writer = .ok o ↔ s.obj? = some o := by
  cases s <;> simp [WriteState.writer, WriteState.obj?]

theorem start_ok_obj? (fl : Faults) (s st : WriteState)
    (h : WriteState.start fl s = .ok st) : st.obj? = s.obj? := by
  cases s with
  | Idle => simp [WriteState.start] at h
  | Parked o =>
    by_cases hb : fl.streamFail = true
    · simp [WriteState.start, hb] at h
    · simp [WriteState.start, hb] at h
      subst h
      rfl
  | Encoding o =>
    simp [WriteState.start] at h
    subst h
    rfl

theorem start_ok_encoding (fl : Faults) (s st : WriteState)
    (h : WriteState.start fl s = .ok st) : ∃ o, st = .Encoding o := by
  cases s with
  | Idle => simp [WriteState.start] at h
  | Parked o =>
    by_cases hb : fl.streamFail = true
    · simp [WriteState.start, hb] at h
    · simp [WriteState.start, hb] at h
      exact ⟨o, h.symm⟩
  | Encoding o =>
    simp [WriteState.start] at h
    exact ⟨o, h.symm⟩

theorem finish_ok_obj? (fl : Faults) (s : WriteState) (o : WriteObject)
    (h : WriteState.finish fl s = .ok o) : s.obj? = some o := by
  cases s with
  | Idle => simp [WriteState.finish] at h
  | Parked w =>
    simp [WriteState.finish] at h
    subst h
    rfl
  | Encoding w =>
    by_cases hb : fl.compressFinishFail = true
    · simp [WriteState.finish, hb] at h
    · simp [WriteState.finish, hb] at h
      subst h
      rfl

/-- Inversion of a successful `seal_and_store`: the header fitted, the
backend accepted, and the resulting packer state is exactly one sealed
object appended to the store, the drained offsets registered under the
sealed object's id, the reused buffer carrying the pre-generated next
id with cleared payload and the cursor past the header region, and the
mid-write field (if any) re-registered at the top of the new object. -/
theorem sealAndStore_ok_spec (caps : Caps) (fl : Faults) (w w2 : Writer)
    (h : Writer.sealAndStore caps fl w = (w2, none)) :
    ∃ object,
      WriteState.finish fl w.encoder = .ok object ∧
      (caps.encodeHeader (sealHeader w w.nextIdSeed object.position)).length <
        caps.headerSize ∧
      fl.backendFail = false ∧
      w2 = { objects := drainOffsets w.objects w.offsets object.id
             offsets := match w.current_field with
               | some f => [(f, caps.headerSize)]
               | none => []
             encoder := .Parked ⟨w.nextIdSeed, caps.headerSize, [],
               caps.encodeHeader (sealHeader w w.nextIdSeed object.position)⟩
             current_field := w.current_field
             nextIdSeed := w.nextIdSeed + 1
             store := w.store ++ [{ object with
               header := caps.encodeHeader
                 (sealHeader w w.nextIdSeed object.position) }] } := by
  unfold Writer.sealAndStore at h
  cases hf : WriteState.finish fl w.encoder with
  | error e =>
    rw [hf] at h
    simp at h
  | ok object =>
    rw [hf] at h
    simp only [WriteObject.finalize] at h
    refine ⟨object, rfl, ?_⟩
    split at h
    · rename_i hfit
      split at h
      · simp at h
      · rename_i hbk
        obtain ⟨h1, -⟩ := Prod.mk.injEq .. ▸ h
        refine ⟨hfit, by simpa using hbk, ?_⟩
        subst h1
        rfl
    · simp at h

/-- Inversion of a failing `seal_and_store`: the error is surfaced, the
state machine is left `Idle` (the buffer was swapped out), and neither
the backend store nor the index has been touched. -/
theorem sealAndStore_err_spec (caps : Caps) (fl : Faults) (w w2 : Writer)
    (e : Err) (h : Writer.sealAndStore caps fl w = (w2, some e)) :
    w2.encoder = .Idle ∧ w2.store = w.store ∧ w2.objects = w.objects := by
  unfold Writer.sealAndStore at h
  cases hf : WriteState.finish fl w.encoder with
  | error e' =>
    rw [hf] at h
    obtain ⟨h1, -⟩ := Prod.mk.injEq .. ▸ h
    subst h1
    exact ⟨rfl, rfl, rfl⟩
  | ok object =>
    rw [hf] at h
    simp only [WriteObject.finalize] at h
    split at h
    · split at h
      · obtain ⟨h1, -⟩ := Prod.mk.injEq .. ▸ h
        subst h1
        exact ⟨rfl, rfl, rfl⟩
      · simp at h
    · obtain ⟨h1, -⟩ := Prod.mk.injEq .. ▸ h
      subst h1
      exact ⟨rfl, rfl, rfl⟩

/-- C2: if the encoded `MetaObjectHeader` does not fit the reserved
header region, `seal_and_store` fails with the header-overflow
condition for that seal attempt: the header is never written into the
buffer, encryption is never reached, the backend is never asked to
persist (the store is unchanged), and the index is unchanged — the
header is not silently truncated. -/
theorem seal_header_overflow_aborts (caps : Caps) (fl : Faults) (w : Writer)
    (object : WriteObject)
    (hfin : WriteState.finish fl w.encoder = .ok object)
    (hbig : caps.headerSize ≤
      (caps.encodeHeader (sealHeader w w.nextIdSeed object.position)).length) :
    Writer.sealAndStore caps fl w =
      ({ w with encoder := .Idle, nextIdSeed := w.nextIdSeed + 1 },
        some .headerOverflow) ∧
    (Writer.sealAndStore caps fl w).1.store = w.store ∧
    (Writer.sealAndStore caps fl w).1.objects = w.objects := by
  have hmain : Writer.sealAndStore caps fl w =
      ({ w with encoder := .Idle, nextIdSeed := w.nextIdSeed + 1 },
        some .headerOverflow) := by
    unfold Writer.sealAndStore
    rw [hfin]
    simp only [WriteObject.finalize]
    rw [if_neg (by omega)]
  exact ⟨hmain, by rw [hmain], by rw [hmain]⟩

/-- C4: once the buffer is recovered, `seal_and_store` always consumes a
fresh next-object identifier from the id generator (even when the next
pointer goes unused); the header's next pointer is `some next_id`
exactly when a field is mid-write; and on a successful seal the reused
buffer carries the pre-generated next id, an empty payload, and its
cursor at the end of the reserved header region. -/
theorem seal_next_id_generation (caps : Caps) (fl : Faults) (w : Writer)
    (object : WriteObject)
    (hfin : WriteState.finish fl w.encoder = .ok object) :
    (Writer.sealAndStore caps fl w).1.nextIdSeed = w.nextIdSeed + 1 ∧
    ((sealHeader w w.nextIdSeed object.position).next = some w.nextIdSeed ↔
      w.current_field.isSome = true) ∧
    (∀ w2, Writer.sealAndStore caps fl w = (w2, none) →
      ∃ o, w2.encoder = .Parked o ∧ o.id = w.nextIdSeed ∧
        o.payload = [] ∧ o.position = caps.headerSize) := by
  refine ⟨?_, ?_, ?_⟩
  · unfold Writer.sealAndStore
    rw [hfin]
    simp only [WriteObject.finalize]
    split
    · split <;> rfl
    · rfl
  · cases hc : w.current_field <;> simp [sealHeader, hc]
  · intro w2 h2
    obtain ⟨object', -, -, -, hw2⟩ := sealAndStore_ok_spec caps fl w w2 h2
    subst hw2
    exact ⟨_, rfl, rfl, rfl, rfl⟩

/-- C5: `write_next` runs a full seal-and-store cycle before serializing
the record exactly when the remaining capacity — buffer capacity minus
buffer position, not compression-aware — is strictly below one
compression frame (`STREAM_BLOCK_SIZE`); otherwise the record is
serialized into the current object with no seal: the serialization step
never persists anything, while a completed seal persists exactly one
object. -/
theorem write_next_seal_iff (caps : Caps) (fl : Faults) (w : Writer)
    (wr : WriteObject) (r : List Nat)
    (hwr : w.encoder.writer = .ok wr) :
    (Writer.write_next caps fl w r =
      if caps.capacity - wr.position < caps.streamBlockSize then
        match w.sealAndStore caps fl with
        | (w2, some e) => (w2, some e)
        | (w2, none) => w2.serializeStep fl r
      else w.serializeStep fl r) ∧
    (Writer.serializeStep fl w r).1.store = w.store ∧
    (∀ w2, Writer.sealAndStore caps fl w = (w2, none) →
      ∃ o, w2.store = w.store ++ [o]) := by
  refine ⟨?_, ?_, ?_⟩
  · unfold Writer.write_next
    rw [hwr]
  · unfold Writer.serializeStep
    cases hs : WriteState.start fl w.encoder with
    | error e => rfl
    | ok st =>
      by_cases hz : fl.serializeFail = true
      · simp [hz]
      · simp only [hz, if_false]
        cases hw : WriteState.write st r with
        | mk st2 res => cases res <;> rfl
  · intro w2 h2
    obtain ⟨object, -, -, -, hw2⟩ := sealAndStore_ok_spec caps fl w w2 h2
    subst hw2
    exact ⟨_, rfl⟩

theorem stUB_iff (caps : Caps) (s : WriteState) :
    stUB caps s ↔
      ∀ o, s.obj? = some o → o.position ≤ caps.capacity := by
  cases s <;> simp [stUB, WriteState.obj?]

theorem stLB_iff (caps : Caps) (s : WriteState) :
    stLB caps s ↔
      ∀ o, s.obj? = some o → caps.headerSize ≤ o.position := by
  cases s <;> simp [stLB, WriteState.obj?]

theorem serializeStep_ok_spec (fl : Faults) (w w' : Writer) (r : List Nat)
    (h : Writer.serializeStep fl w r = (w', none)) :
    ∃ o, WriteState.obj? w.encoder = some o ∧
      w'.encoder = .Encoding (o.writeBytes r) ∧ w'.store = w.store ∧
      w'.objects = w.objects := by
  unfold Writer.serializeStep at h
  cases hs : WriteState.start fl w.encoder with
  | error e =>
    rw [hs] at h
    simp at h
  | ok st =>
    rw [hs] at h
    obtain ⟨o, rfl⟩ := start_ok_encoding fl _ _ hs
    have hobj : WriteState.obj? w.encoder = some o := by
      have h2 := start_ok_obj? fl _ _ hs
      simpa [WriteState.obj?] using h2.symm
    by_cases hz : fl.serializeFail = true
    · simp [hz] at h
    · simp only [hz, if_false, WriteState.write] at h
      obtain ⟨h1, -⟩ := Prod.mk.injEq .. ▸ h
      subst h1
      exact ⟨o, hobj, rfl, rfl, rfl⟩

theorem stUB_serializeStep (caps : Caps) (fl : Faults) (w : Writer)
    (r : List Nat)
    (h : ∀ o, WriteState.obj? w.encoder = some o →
      o.position + r.length ≤ caps.capacity) :
    stUB caps ((Writer.serializeStep fl w r).1.encoder) := by
  unfold Writer.serializeStep
  cases hs : WriteState.start fl w.encoder with
  | error e => simp [stUB]
  | ok st =>
    obtain ⟨o, rfl⟩ := start_ok_encoding fl _ _ hs
    have hobj : WriteState.obj? w.encoder = some o := by
      have h2 := start_ok_obj? fl _ _ hs
      simpa [WriteState.obj?] using h2.symm
    have hb := h o hobj
    by_cases hz : fl.serializeFail = true
    · simp only [hz, if_true]
      simp [stUB]
      omega
    · simp only [hz, if_false, WriteState.write]
      simp [stUB, WriteObject.writeBytes]
      omega

theorem stLB_serializeStep (caps : Caps) (fl : Faults) (w : Writer)
    (r : List Nat)
    (h : ∀ o, WriteState.obj? w.encoder = some o →
      caps.headerSize ≤ o.position) :
    stLB caps ((Writer.serializeStep fl w r).1.encoder) := by
  unfold Writer.serializeStep
  cases hs : WriteState.start fl w.encoder with
  | error e => simp [stLB]
  | ok st =>
    obtain ⟨o, rfl⟩ := start_ok_encoding fl _ _ hs
    have hobj : WriteState.obj? w.encoder = some o := by
      have h2 := start_ok_obj? fl _ _ hs
      simpa [WriteState.obj?] using h2.symm
    have hb := h o hobj
    by_cases hz : fl.serializeFail = true
    · simp only [hz, if_true]
      simp [stLB]
      omega
    · simp only [hz, if_false, WriteState.write]
      simp [stLB, WriteObject.writeBytes]
      omega

theorem stUB_sealAndStore (caps : Caps) (fl : Faults) (w : Writer)
    (hcap : caps.headerSize ≤ caps.capacity) :
    stUB caps ((Writer.sealAndStore caps fl w).1.encoder) := by
  cases hres : Writer.sealAndStore caps fl w with
  | mk w2 e? =>
    cases e? with
    | some e =>
      have h2 := (sealAndStore_err_spec caps fl w w2 e hres).1
      simp [h2, stUB]
    | none =>
      obtain ⟨object, -, -, -, hw2⟩ := sealAndStore_ok_spec caps fl w w2 hres
      subst hw2
      simpa [stUB] using hcap

theorem stLB_sealAndStore (caps : Caps) (fl : Faults) (w : Writer) :
    stLB caps ((Writer.sealAndStore caps fl w).1.encoder) := by
  cases hres : Writer.sealAndStore caps fl w with
  | mk w2 e? =>
    cases e? with
    | some e =>
      have h2 := (sealAndStore_err_spec caps fl w w2 e hres).1
      simp [h2, stLB]
    | none =>
      obtain ⟨object, -, -, -, hw2⟩ := sealAndStore_ok_spec caps fl w w2 hres
      subst hw2
      simp [stLB]

theorem stUB_write_next (caps : Caps) (fl : Faults) (w : Writer) (r : List Nat)
    (hcap : caps.headerSize + caps.streamBlockSize ≤ caps.capacity)
    (hr : r.length ≤ caps.streamBlockSize)
    (hw : stUB caps w.encoder) :
    stUB caps ((Writer.write_next caps fl w r).1.encoder) := by
  unfold Writer.write_next
  cases hwr : w.encoder.writer with
  | error e => exact hw
  | ok wr =>
    have hobj : WriteState.obj? w.encoder = some wr := (writer_eq_obj? _ _).mp hwr
    have hwrpos : wr.position ≤ caps.capacity := (stUB_iff caps _).mp hw wr hobj
    by_cases hc : caps.capacity - wr.position < caps.streamBlockSize
    · simp only [if_pos hc]
      cases hseal : Writer.sealAndStore caps fl w with
      | mk w2 e? =>
        cases e? with
        | some e =>
          have h2 := (sealAndStore_err_spec caps fl w w2 e hseal).1
          simp [h2, stUB]
        | none =>
          obtain ⟨object, -, -, -, hw2⟩ := sealAndStore_ok_spec caps fl w w2 hseal
          apply stUB_serializeStep
          intro o ho
          rw [hw2] at ho
          simp [WriteState.obj?] at ho
          subst ho
          simp
          omega
    · simp only [if_neg hc]
      apply stUB_serializeStep
      intro o ho
      rw [hobj] at ho
      obtain rfl := Option.some.inj ho
      omega

theorem stLB_write_next (caps : Caps) (fl : Faults) (w : Writer) (r : List Nat)
    (hw : stLB caps w.encoder) :
    stLB caps ((Writer.write_next caps fl w r).1.encoder) := by
  unfold Writer.write_next
  cases hwr : w.encoder.writer with
  | error e => exact hw
  | ok wr =>
    by_cases hc : caps.capacity - wr.position < caps.streamBlockSize
    · simp only [if_pos hc]
      cases hseal : Writer.sealAndStore caps fl w with
      | mk w2 e? =>
        cases e? with
        | some e =>
          have h2 := (sealAndStore_err_spec caps fl w w2 e hseal).1
          simp [h2, stLB]
        | none =>
          obtain ⟨object, -, -, -, hw2⟩ := sealAndStore_ok_spec caps fl w w2 hseal
          apply stLB_serializeStep
          intro o ho
          rw [hw2] at ho
          simp [WriteState.obj?] at ho
          subst ho
          simp
    · simp only [if_neg hc]
      apply stLB_serializeStep
      intro o ho
      exact (stLB_iff caps _).mp hw o ho

theorem stUB_runWrites (caps : Caps) (fl : Faults) (recs : List (List Nat))
    (w : Writer)
    (hcap : caps.headerSize + caps.streamBlockSize ≤ caps.capacity)
    (hrecs : ∀ r ∈ recs, r.length ≤ caps.streamBlockSize)
    (hw : stUB caps w.encoder) :
    stUB caps ((Writer.runWrites caps fl w recs).1.encoder) := by
  induction recs generalizing w with
  | nil => exact hw
  | cons r rs ih =>
    unfold Writer.runWrites
    cases hn : Writer.write_next caps fl w r with
    | mk w2 e? =>
      have h2 : stUB caps w2.encoder := by
        have h3 := stUB_write_next caps fl w r hcap (hrecs r (by simp)) hw
        rwa [hn] at h3
      cases e? with
      | some e => exact h2
      | none =>
        exact ih w2 (fun r' hr' => hrecs r' (List.mem_cons_of_mem _ hr')) h2

theorem stLB_runWrites (caps : Caps) (fl : Faults) (recs : List (List Nat))
    (w : Writer) (hw : stLB caps w.encoder) :
    stLB caps ((Writer.runWrites caps fl w recs).1.encoder) := by
  induction recs generalizing w with
  | nil => exact hw
  | cons r rs ih =>
    unfold Writer.runWrites
    cases hn : Writer.write_next caps fl w r with
    | mk w2 e? =>
      have h2 : stLB caps w2.encoder := by
        have h3 := stLB_write_next caps fl w r hw
        rwa [hn] at h3
      cases e? with
      | some e => exact h2
      | none => exact ih w2 h2

/-- C1: along any sequence of `write_next` calls from a fresh `Writer`,
the write position of the active object never exceeds its total
capacity — equivalently `capacity - position` never underflows at the
headroom check — because a seal is always triggered before a write
could push the position past capacity.  Each record's byte contribution
through the compression stream is bounded by one compression frame
(`STREAM_BLOCK_SIZE`), and the header region plus one frame fit the
capacity. -/
theorem write_next_never_overflows (caps : Caps) (fl : Faults)
    (root : ObjectId) (recs : List (List Nat)) (k : Nat)
    (hcap : caps.headerSize + caps.streamBlockSize ≤ caps.capacity)
    (hrecs : ∀ r ∈ recs, r.length ≤ caps.streamBlockSize) :
    stUB caps (Writer.new caps root).encoder ∧
    stUB caps ((Writer.runWrites caps fl (Writer.new caps root)
      (recs.take k)).1.encoder) := by
  have hnew : stUB caps (Writer.new caps root).encoder := by
    show caps.headerSize ≤ caps.capacity
    omega
  refine ⟨hnew, stUB_runWrites caps fl _ _ hcap ?_ hnew⟩
  intro r hr
  exact hrecs r (List.take_subset k recs hr)

/-- Inversion of a successful `write_field`: the eager bookkeeping (offset
push and index registration under the current object id) happened, the
stream was opened, the field body ran to completion, the stream was
finished, and the returned state parks the recovered buffer with its
cursor skipped to the next frame boundary, the current-field marker
cleared. -/
theorem write_field_ok_spec (caps : Caps) (fl : Faults) (w : Writer) (f : Field)
    (recs : List (List Nat)) (w' : Writer)
    (h : Writer.write_field caps fl w f recs = (w', none)) :
    ∃ wr st w2 object,
      w.encoder.writer = .ok wr ∧
      WriteState.start fl w.encoder = .ok st ∧
      Writer.runWrites caps fl
        { w with offsets := w.offsets ++ [(f, wr.position)]
                 objects := indexRecord w.objects f wr.id
                 encoder := st
                 current_field := some f } recs = (w2, none) ∧
      WriteState.finish fl w2.encoder = .ok object ∧
      w' = { w2 with current_field := none
                     encoder := .Parked (object.seekAdd
                       (caps.streamBlockSize -
                         (object.position - caps.headerSize) %
                           caps.streamBlockSize)) } := by
  unfold Writer.write_field at h
  split at h
  · simp at h
  · rename_i wr hwr
    split at h
    · simp at h
    · rename_i st hst
      split at h
      · simp at h
      · rename_i w2 hrun
        split at h
        · simp at h
        · rename_i object hfin
          obtain ⟨h1, -⟩ := Prod.mk.injEq .. ▸ h
          exact ⟨wr, st, w2, object, hwr, hst, hrun, hfin, h1.symm⟩

theorem pad_align (S a : Nat) (hS : 0 < S) : (a + (S - a % S)) % S = 0 := by
  have hd := Nat.div_add_mod a S
  have hr : a % S < S := Nat.mod_lt _ hS
  have h2 : a + (S - a % S) = S * (a / S) + S := by omega
  rw [h2, ← Nat.mul_succ]
  exact Nat.mul_mod_right _ _

/-- C6: whenever `write_field` returns normally, the parked object's
write position, measured from the end of the reserved header region, is
an exact multiple of the compression frame size: the final skip pads
the position forward to a frame-aligned offset. -/
theorem write_field_position_aligned (caps : Caps) (fl : Faults) (w : Writer)
    (f : Field) (recs : List (List Nat)) (w' : Writer)
    (hS : 0 < caps.streamBlockSize)
    (hLB : stLB caps w.encoder)
    (h : Writer.write_field caps fl w f recs = (w', none)) :
    ∃ o, w'.encoder = .Parked o ∧
      (o.position - caps.headerSize) % caps.streamBlockSize = 0 := by
  obtain ⟨wr, st, w2, object, hwr, hst, hrun, hfin, hw'⟩ :=
    write_field_ok_spec caps fl w f recs w' h
  have hLB1 : stLB caps st := by
    rw [stLB_iff] at hLB ⊢
    intro o ho
    exact hLB o ((start_ok_obj? fl _ _ hst) ▸ ho)
  have hLB2 : stLB caps w2.encoder := by
    have h3 := stLB_runWrites caps fl recs
      { w with offsets := w.offsets ++ [(f, wr.position)]
               objects := indexRecord w.objects f wr.id
               encoder := st
               current_field := some f } hLB1
    rwa [hrun] at h3
  have hpos : caps.headerSize ≤ object.position :=
    (stLB_iff caps _).mp hLB2 object (finish_ok_obj? fl _ _ hfin)
  subst hw'
  refine ⟨_, rfl, ?_⟩
  simp only [WriteObject.seekAdd]
  generalize hm : (object.position - caps.headerSize) % caps.streamBlockSize = m
  have h3 : object.position + (caps.streamBlockSize - m) - caps.headerSize =
      (object.position - caps.headerSize) + (caps.streamBlockSize - m) := by
    omega
  rw [h3, ← hm]
  exact pad_align _ _ hS

theorem write_next_ok_encoding (caps : Caps) (fl : Faults) (w : Writer)
    (r : List Nat) (w' : Writer)
    (h : Writer.write_next caps fl w r = (w', none)) :
    ∃ o, w'.encoder = .Encoding o := by
  unfold Writer.write_next at h
  split at h
  · simp at h
  · rename_i wr hwr
    split at h
    · split at h
      · simp at h
      · rename_i w2 hseal
        obtain ⟨o, -, ho, -, -⟩ := serializeStep_ok_spec fl w2 w' r h
        exact ⟨_, ho⟩
    · obtain ⟨o, -, ho, -, -⟩ := serializeStep_ok_spec fl w w' r h
      exact ⟨_, ho⟩

/-- C7: the `Idle` state is never observable through the packer's public
operations: `new` parks a fresh buffer, and each of `write_field`,
`seal_and_store` and `write_next`, when it completes normally, leaves
the state machine `Parked` or `Encoding`, never `Idle` — so the
"Uninitialized" branches of `start`, `finish`, `writer` and `write` are
unreachable under correct `Writer` usage. -/
theorem idle_never_observable (caps : Caps) :
    (∀ root, (Writer.new caps root).encoder =
      .Parked ⟨root, caps.headerSize, [], []⟩) ∧
    (∀ fl w f recs w', Writer.write_field caps fl w f recs = (w', none) →
      w'.encoder ≠ .Idle) ∧
    (∀ fl w w', Writer.sealAndStore caps fl w = (w', none) →
      w'.encoder ≠ .Idle) ∧
    (∀ fl w r w', Writer.write_next caps fl w r = (w', none) →
      w'.encoder ≠ .Idle) := by
  refine ⟨fun root => rfl, ?_, ?_, ?_⟩
  · intro fl w f recs w' h
    obtain ⟨wr, st, w2, object, -, -, -, -, hw'⟩ :=
      write_field_ok_spec caps fl w f recs w' h
    subst hw'
    simp
  · intro fl w w' h
    obtain ⟨object, -, -, -, hw'⟩ := sealAndStore_ok_spec caps fl w w' h
    subst hw'
    simp
  · intro fl w r w' h
    obtain ⟨o, ho⟩ := write_next_ok_encoding caps fl w r w' h
    simp [ho]

/-- C8: an injected failure of any fallible collaborator — the
compression stream's flush during a seal, the backend's persist, the
stream opening in `write_next`, or the record serialization — aborts
the operation and surfaces exactly that failure to the immediate
caller; nothing is swallowed and the backend store is left exactly as
it was (no retry, no partial persistence). -/
theorem failures_propagate (caps : Caps) :
    (∀ (fl : Faults) (w : Writer) o, fl.compressFinishFail = true →
      w.encoder = .Encoding o →
      Writer.sealAndStore caps fl w =
        ({ w with encoder := .Idle }, some .compressFinishFail)) ∧
    (∀ (fl : Faults) (w : Writer) object, fl.backendFail = true →
      WriteState.finish fl w.encoder = .ok object →
      (caps.encodeHeader (sealHeader w w.nextIdSeed object.position)).length <
        caps.headerSize →
      Writer.sealAndStore caps fl w =
        ({ w with encoder := .Idle, nextIdSeed := w.nextIdSeed + 1 },
          some .backendFail)) ∧
    (∀ (fl : Faults) (w : Writer) o r, fl.streamFail = true →
      w.encoder = .Parked o →
      ¬ caps.capacity - o.position < caps.streamBlockSize →
      Writer.write_next caps fl w r =
        ({ w with encoder := .Idle }, some .streamFail)) ∧
    (∀ (fl : Faults) (w : Writer) o r, fl.streamFail = false →
      fl.serializeFail = true →
      w.encoder = .Parked o →
      ¬ caps.capacity - o.position < caps.streamBlockSize →
      Writer.write_next caps fl w r =
        ({ w with encoder := .Encoding o }, some .serializeFail)) := by
  refine ⟨?_, ?_, ?_, ?_⟩
  · intro fl w o hb henc
    have hfin : WriteState.finish fl w.encoder = .error .compressFinishFail := by
      rw [henc]
      simp [WriteState.finish, hb]
    unfold Writer.sealAndStore
    rw [hfin]
  · intro fl w object hb hfin hfit
    unfold Writer.sealAndStore
    rw [hfin]
    simp only [WriteObject.finalize]
    rw [if_pos hfit, if_pos hb]
  · intro fl w o r hsf henc hc
    unfold Writer.write_next Writer.serializeStep
    rw [henc]
    simp [WriteState.writer, WriteState.start, hsf, hc]
  · intro fl w o r hsf hz henc hc
    unfold Writer.write_next Writer.serializeStep
    rw [henc]
    simp [WriteState.writer, WriteState.start, hsf, hz, hc]

/-- C3: a field sealed mid-write spans two objects — the one sealed
while its record was being written and the successor that continues
it — and the ObjectIndex eventually maps the field to both object
identifiers: the sealed object's id immediately (eager registration
plus the drain at the mid-write seal), and the successor's id once the
successor is itself sealed (via the continuation offset re-registered
at the top of the new object). -/
theorem span_field_registered_in_both (caps : Caps) (obj : WriteObject)
    (f : Field) (objects0 : ObjectIndex) (seed : Nat)
    (store0 : List WriteObject) (r : List Nat)
    (hfit : ∀ hd, (caps.encodeHeader hd).length < caps.headerSize)
    (hcond : caps.capacity - obj.position < caps.streamBlockSize) :
    obj.id ∈ indexLookup
      ((Writer.sealAndStore caps noFaults
        ((Writer.write_field caps noFaults
          ⟨objects0, [], .Parked obj, none, seed, store0⟩ f [r]).1)).1).objects
      f ∧
    seed ∈ indexLookup
      ((Writer.sealAndStore caps noFaults
        ((Writer.write_field caps noFaults
          ⟨objects0, [], .Parked obj, none, seed, store0⟩ f [r]).1)).1).objects
      f := by
  simp only [Writer.write_field, Writer.runWrites, Writer.write_next,
    Writer.serializeStep, Writer.sealAndStore, WriteState.writer,
    WriteState.start, WriteState.finish, WriteState.write,
    WriteObject.writeBytes, WriteObject.finalize, WriteObject.encrypt,
    WriteObject.write_head, WriteObject.set_id, WriteObject.clear,
    WriteObject.seekTo, WriteObject.seekAdd, sealHeader, noFaults,
    drainOffsets, List.foldl, List.nil_append, Option.map_some',
    Bool.false_eq_true, if_false, if_true, ite_false, ite_true,
    if_pos hcond, if_pos (hfit _)]
  constructor
  · exact mem_indexLookup_indexRecord_mono _ _ _ _ _
      (mem_indexLookup_indexRecord_mono _ _ _ _ _
        (mem_indexLookup_indexRecord_self _ _ _))
  · exact mem_indexLookup_indexRecord_self _ _ _

/-- Witness for C1 at a concrete configuration and record sequence. -/
theorem write_next_never_overflows_witness :
    (capsW.headerSize + capsW.streamBlockSize ≤ capsW.capacity) ∧
    (∀ r ∈ [[1, 2, 3], [4]], List.length r ≤ capsW.streamBlockSize) ∧
    (stUB capsW (Writer.new capsW 0).encoder ∧
      stUB capsW ((Writer.runWrites capsW noFaults (Writer.new capsW 0)
        ([[1, 2, 3], [4]].take 2)).1.encoder)) :=
  ⟨by decide, by decide,
    write_next_never_overflows capsW noFaults 0 [[1, 2, 3], [4]] 2
      (by decide) (by decide)⟩

/-- Witness for C2: with a 5-byte header encoding and a 4-byte header
region, the seal aborts with the overflow error and persists nothing. -/
theorem seal_header_overflow_aborts_witness :
    (capsBig.headerSize ≤
      (capsBig.encodeHeader (sealHeader (Writer.new capsBig 0) 0 4)).length) ∧
    (Writer.sealAndStore capsBig noFaults (Writer.new capsBig 0) =
      ({ Writer.new capsBig 0 with encoder := .Idle, nextIdSeed := 1 },
        some .headerOverflow)) ∧
    ((Writer.sealAndStore capsBig noFaults (Writer.new capsBig 0)).1.store = []) ∧
    ((Writer.sealAndStore capsBig noFaults (Writer.new capsBig 0)).1.objects = []) := by
  obtain ⟨h1, h2, h3⟩ := seal_header_overflow_aborts capsBig noFaults
    (Writer.new capsBig 0) ⟨0, 4, [], []⟩ rfl (by decide)
  exact ⟨by decide, h1, h2, h3⟩

/-- Witness for C3: field 3 is written into an almost-full object
(position 99 of 100), sealed mid-write, and after the successor object
is sealed the index lists the field under both ids 7 and 5. -/
theorem span_field_registered_in_both_witness :
    (7 : Nat) ∈ indexLookup
      ((Writer.sealAndStore capsW noFaults
        ((Writer.write_field capsW noFaults
          ⟨[], [], .Parked ⟨7, 99, [], []⟩, none, 5, []⟩ 3 [[1, 2]]).1)).1).objects
      3 ∧
    (5 : Nat) ∈ indexLookup
      ((Writer.sealAndStore capsW noFaults
        ((Writer.write_field capsW noFaults
          ⟨[], [], .Parked ⟨7, 99, [], []⟩, none, 5, []⟩ 3 [[1, 2]]).1)).1).objects
      3 :=
  span_field_registered_in_both capsW ⟨7, 99, [], []⟩ 3 [] 5 [] [1, 2]
    (fun _ => by simp [capsW]) (by decide)

/-- Witness for C4 at a fresh packer: the seal consumes id 0, leaves the
seed at 1, the header next pointer is unused (no mid-write field), and
the reused buffer carries id 0's successor with cleared payload. -/
theorem seal_next_id_generation_witness :
    ((Writer.sealAndStore capsW noFaults (Writer.new capsW 0)).1.nextIdSeed = 1) ∧
    ((sealHeader (Writer.new capsW 0) 0 4).next = some 0 ↔
      (Writer.new capsW 0).current_field.isSome = true) ∧
    (∃ o, (Writer.sealAndStore capsW noFaults (Writer.new capsW 0)).1.encoder =
      .Parked o ∧ o.id = 0 ∧ o.payload = [] ∧ o.position = capsW.headerSize) := by
  obtain ⟨h1, h2, h3⟩ := seal_next_id_generation capsW noFaults
    (Writer.new capsW 0) ⟨0, 4, [], []⟩ rfl
  exact ⟨h1, h2,
    h3 ((Writer.sealAndStore capsW noFaults (Writer.new capsW 0)).1) (by decide)⟩

/-- Witness for C5 at a fresh packer: the seal decision of `write_next`
is exactly the headroom test, serialization alone never persists, and a
completed seal persists exactly one object. -/
theorem write_next_seal_iff_witness :
    (Writer.write_next capsW noFaults (Writer.new capsW 0) [9] =
      if capsW.capacity - (4 : Nat) < capsW.streamBlockSize then
        match Writer.sealAndStore capsW noFaults (Writer.new capsW 0) with
        | (w2, some e) => (w2, some e)
        | (w2, none) => Writer.serializeStep noFaults w2 [9]
      else Writer.serializeStep noFaults (Writer.new capsW 0) [9]) ∧
    ((Writer.serializeStep noFaults (Writer.new capsW 0) [9]).1.store =
      (Writer.new capsW 0).store) ∧
    (∃ o, (Writer.sealAndStore capsW noFaults (Writer.new capsW 0)).1.store =
      (Writer.new capsW 0).store ++ [o]) := by
  obtain ⟨h1, h2, h3⟩ := write_next_seal_iff capsW noFaults
    (Writer.new capsW 0) ⟨0, 4, [], []⟩ [9] rfl
  exact ⟨h1, h2,
    h3 ((Writer.sealAndStore capsW noFaults (Writer.new capsW 0)).1) (by decide)⟩

/-- Witness for C6: after writing a 3-byte record of field 3 into a
fresh packer, the parked position is 12, and 12 - 4 is a multiple of
the 8-byte frame. -/
theorem write_field_position_aligned_witness :
    ∃ o, ((Writer.write_field capsW noFaults (Writer.new capsW 0) 3
      [[1, 2, 3]]).1).encoder = .Parked o ∧
      (o.position - capsW.headerSize) % capsW.streamBlockSize = 0 :=
  write_field_position_aligned capsW noFaults (Writer.new capsW 0) 3 [[1, 2, 3]]
    ((Writer.write_field capsW noFaults (Writer.new capsW 0) 3 [[1, 2, 3]]).1)
    (by decide) (Nat.le_refl 4) (by decide)

/-- Witness for C7: concrete normal completions of every public
operation leave the state machine `Parked` or `Encoding`. -/
theorem idle_never_observable_witness :
    ((Writer.new capsW 0).encoder = .Parked ⟨0, capsW.headerSize, [], []⟩) ∧
    ((Writer.write_field capsW noFaults (Writer.new capsW 0) 3 [[1]]).1.encoder ≠
      .Idle) ∧
    ((Writer.sealAndStore capsW noFaults (Writer.new capsW 0)).1.encoder ≠
      .Idle) ∧
    ((Writer.write_next capsW noFaults (Writer.new capsW 0) [1]).1.encoder ≠
      .Idle) := by
  obtain ⟨h1, h2, h3, h4⟩ := idle_never_observable capsW
  exact ⟨h1 0,
    h2 noFaults (Writer.new capsW 0) 3 [[1]]
      ((Writer.write_field capsW noFaults (Writer.new capsW 0) 3 [[1]]).1)
      (by decide),
    h3 noFaults (Writer.new capsW 0)
      ((Writer.sealAndStore capsW noFaults (Writer.new capsW 0)).1) (by decide),
    h4 noFaults (Writer.new capsW 0) [1]
      ((Writer.write_next capsW noFaults (Writer.new capsW 0) [1]).1)
      (by decide)⟩

/-- Witness for C8: each injected capability failure surfaces as exactly
that error at a concrete packer state, with the store untouched. -/
theorem failures_propagate_witness :
    (Writer.sealAndStore capsW ⟨false, true, false, false⟩ wEnc =
      ({ wEnc with encoder := .Idle }, some .compressFinishFail)) ∧
    (Writer.sealAndStore capsW ⟨false, false, false, true⟩ (Writer.new capsW 0) =
      ({ Writer.new capsW 0 with encoder := .Idle, nextIdSeed := 1 },
        some .backendFail)) ∧
    (Writer.write_next capsW ⟨true, false, false, false⟩ (Writer.new capsW 0) [9] =
      ({ Writer.new capsW 0 with encoder := .Idle }, some .streamFail)) ∧
    (Writer.write_next capsW ⟨false, false, true, false⟩ (Writer.new capsW 0) [9] =
      ({ Writer.new capsW 0 with encoder := .Encoding ⟨0, 4, [], []⟩ },
        some .serializeFail)) := by
  obtain ⟨hA, hB, hC, hD⟩ := failures_propagate capsW
  exact ⟨hA ⟨false, true, false, false⟩ wEnc ⟨0, 4, [], []⟩ rfl rfl,
    hB ⟨false, false, false, true⟩ (Writer.new capsW 0) ⟨0, 4, [], []⟩ rfl rfl
      (by decide),
    hC ⟨true, false, false, false⟩ (Writer.new capsW 0) ⟨0, 4, [], []⟩ [9] rfl rfl
      (by decide),
    hD ⟨false, false, true, false⟩ (Writer.new capsW 0) ⟨0, 4, [], []⟩ [9] rfl rfl
      rfl (by decide)⟩

end ZeroStash
